/-
Verification of the Tangelo DLPNO core (coupling functional, pair screening,
convergence monitor) against its specification.

Shallow embedding conventions:
  * Python floats are modelled exactly: a finite float is the rational that the
    IEEE-754 double denotes, and the non-finite values (inf, -inf, nan) are
    separate constructors of `Fl`.  The convergence monitor performs arithmetic
    only after `math.isfinite` guards, and the concrete scenarios used below
    only involve floating-point operations that are exact (Sterbenz
    subtractions, comparisons), so exact rational arithmetic on the IEEE double
    values reproduces the Python computation step for step.
  * Python `None` becomes `Option`.
  * Exceptions become `Except` with structured error payloads carrying the data
    that the Python error messages interpolate.
  * The mutable `ConvergenceMonitor` class becomes explicit state passing: an
    update consumes a monitor value and returns the new monitor together with
    the appended record.  (A second, reference-semantics model of the same
    class, used only to analyse aliasing of `records`, appears further below.)
-/

import Mathlib

set_option linter.unusedVariables false

namespace Tangelo

/-! ## Python float values

`Fl` models the values a Python `float` can take: a finite IEEE-754 double
(represented by the exact rational it denotes) or one of the non-finite
values.  `math.isfinite` is the only operation the convergence monitor applies
to a possibly non-finite value; all arithmetic happens behind such guards. -/

inductive Fl where
  | fin (q : ℚ)
  | inf
  | ninf
  | nan
deriving DecidableEq, Repr

/-- `math.isfinite` -/
def Fl.isfinite : Fl → Bool
  | .fin _ => true
  | _ => false

/-! ## src/tangelo/dlpno/structures.py -/

/-- `ConvergenceCriteria` dataclass (structures.py lines 66-77). -/
structure ConvergenceCriteria where
  energy_abs_tol : ℚ
  energy_rel_tol : ℚ
  max_iterations : Option ℕ := none
deriving DecidableEq, Repr

/-- `ConvergenceRecord` dataclass (structures.py lines 80-93).
`iteration` is a Python int, hence `ℤ`; `energy` and `residual_norm` are
`float | None`, hence `Option Fl`. -/
structure ConvergenceRecord where
  iteration : ℤ
  energy : Option Fl
  residual_norm : Option Fl
  converged : Bool
deriving DecidableEq, Repr

instance : Inhabited ConvergenceRecord := ⟨⟨0, none, none, false⟩⟩

/-! ## src/tangelo/dlpno/convergence.py -/

/-- The `energy_converged` computation inside `ConvergenceMonitor.update`
(convergence.py lines 57-71): the current and previous energies must be
defined (`is not None`) and finite, the absolute difference must be below
`energy_abs_tol`, and when `abs(prev) > 1e-12` the relative difference must be
below `energy_rel_tol` (otherwise `rel_tol_met` is set to `abs_tol_met`). -/
def energyConvergedStep (crit : ConvergenceCriteria) (energy prev : Option Fl) : Bool :=
  match energy, prev with
  | some (.fin e), some (.fin p) =>
      let energy_diff := |e - p|
      let abs_tol_met := decide (energy_diff < crit.energy_abs_tol)
      let rel_tol_met :=
        if |p| > 1e-12 then decide (energy_diff / |p| < crit.energy_rel_tol)
        else abs_tol_met
      abs_tol_met && rel_tol_met
  | _, _ => false

/-- The `residual_converged` computation inside `ConvergenceMonitor.update`
(convergence.py lines 73-75): the residual must be defined and finite and
strictly below `energy_abs_tol`. -/
def residualConvergedStep (crit : ConvergenceCriteria) (residual_norm : Option Fl) : Bool :=
  match residual_norm with
  | some (.fin r) => decide (r < crit.energy_abs_tol)
  | _ => false

/-- The `converged` flag computed by one call of `ConvergenceMonitor.update`
(convergence.py lines 50-78), given the energy of the last stored record
(`prevEnergy = some prev.energy` when a previous record exists, `none`
otherwise): convergence is checked only when `iteration > 0` and a previous
record exists, and requires both the energy and the residual criteria. -/
def convergedStep (crit : ConvergenceCriteria) (iteration : ℤ)
    (prevEnergy : Option (Option Fl)) (energy residual_norm : Option Fl) : Bool :=
  match prevEnergy with
  | some pe =>
      if 0 < iteration then
        energyConvergedStep crit energy pe && residualConvergedStep crit residual_norm
      else false
  | none => false

/-- `ConvergenceMonitor` state (convergence.py lines 29-37): the criteria, the
record log `_records`, and the sticky flag `_converged`. -/
structure ConvergenceMonitor where
  criteria : ConvergenceCriteria
  _records : List ConvergenceRecord
  _converged : Bool
deriving DecidableEq, Repr

/-- `ConvergenceMonitor.__init__` (convergence.py lines 29-37). -/
def ConvergenceMonitor.init (criteria : ConvergenceCriteria) : ConvergenceMonitor :=
  ⟨criteria, [], false⟩

/-- `ConvergenceMonitor.update` (convergence.py lines 39-92).  Returns the new
monitor state and the freshly appended record.  The Python guard
`if iteration > 0 and len(self._records) > 0` together with
`prev_record = self._records[-1]` is rendered through `convergedStep` applied
to the energy of the last record (if any). -/
def ConvergenceMonitor.update (m : ConvergenceMonitor) (iteration : ℤ)
    (energy residual_norm : Option Fl) : ConvergenceMonitor × ConvergenceRecord :=
  let converged := convergedStep m.criteria iteration
    ((m._records.getLast?).map ConvergenceRecord.energy) energy residual_norm
  let record : ConvergenceRecord :=
    { iteration := iteration, energy := energy,
      residual_norm := residual_norm, converged := converged }
  ({ m with _records := m._records ++ [record],
            _converged := m._converged || converged }, record)

/-- `ConvergenceMonitor.is_converged` (convergence.py lines 94-100). -/
def ConvergenceMonitor.is_converged (m : ConvergenceMonitor) : Bool :=
  m._converged

/-- `ConvergenceMonitor.records` (convergence.py lines 102-109): returns
`self._records.copy()`; in the value semantics of this model the copy is the
list itself. -/
def ConvergenceMonitor.records (m : ConvergenceMonitor) : List ConvergenceRecord :=
  m._records

/-- Running a whole sequence of `update` calls, discarding the returned
records. -/
def ConvergenceMonitor.runUpdates (m : ConvergenceMonitor)
    (l : List (ℤ × Option Fl × Option Fl)) : ConvergenceMonitor :=
  l.foldl (fun m u => (m.update u.1 u.2.1 u.2.2).1) m

/-! ## Claim C1: convergence decision of `update` -/

/-- The claim's energy conditions, written from the words of the claim (not
from the code): current and previous energies defined and finite,
`|energy - previous_energy| < energy_abs_tol`, and the relative criterion when
`|previous_energy| > 1e-12` (waived otherwise). -/
def claimEnergyOkC1 (crit : ConvergenceCriteria) (prevEnergy energy : Option Fl) : Bool :=
  match energy, prevEnergy with
  | some (.fin e), some (.fin p) =>
      decide (|e - p| < crit.energy_abs_tol) &&
      (if |p| > 1e-12 then decide (|e - p| / |p| < crit.energy_rel_tol) else true)
  | _, _ => false

/-- The claim's residual condition: residual defined, finite and strictly
below `energy_abs_tol`. -/
def claimResidualOkC1 (crit : ConvergenceCriteria) (residual : Option Fl) : Bool :=
  match residual with
  | some (.fin r) => decide (r < crit.energy_abs_tol)
  | _ => false

/-- The claim-side convergence predicate: all of the claim's conditions. -/
def claimConvergedC1 (crit : ConvergenceCriteria)
    (prevEnergy energy residual : Option Fl) : Bool :=
  claimEnergyOkC1 crit prevEnergy energy && claimResidualOkC1 crit residual

/-- The code's energy test coincides with the claim's energy conditions: in
the waived case the code sets `rel_tol_met := abs_tol_met`, which conjoined
with `abs_tol_met` is the same as treating the relative criterion as
satisfied. -/
lemma energyConvergedStep_eq_claim (crit : ConvergenceCriteria) (pe e : Option Fl) :
    energyConvergedStep crit e pe = claimEnergyOkC1 crit pe e := by
  rcases e with _ | qf
  · rfl
  rcases qf with q | _ | _ | _
  case fin =>
    rcases pe with _ | pf
    · rfl
    rcases pf with p | _ | _ | _
    case fin =>
      show (let d := |q - p|
            let a := decide (d < crit.energy_abs_tol)
            let rl := if |p| > 1e-12 then decide (d / |p| < crit.energy_rel_tol) else a
            a && rl) = _
      by_cases h : |p| > 1e-12
      · simp only [if_pos h, claimEnergyOkC1, if_pos h]
      · simp only [if_neg h, claimEnergyOkC1, if_neg h, Bool.and_self, Bool.and_true]
    all_goals rfl
  all_goals rfl

/-- The code's residual test coincides with the claim's residual condition. -/
lemma residualConvergedStep_eq_claim (crit : ConvergenceCriteria) (r : Option Fl) :
    residualConvergedStep crit r = claimResidualOkC1 crit r := by
  rcases r with _ | rf
  · rfl
  rcases rf with q | _ | _ | _ <;> rfl

/-- One step of the code's convergence test coincides with the claim's
condition list. -/
lemma step_eq_claimConvergedC1 (crit : ConvergenceCriteria)
    (pe e r : Option Fl) :
    (energyConvergedStep crit e pe && residualConvergedStep crit r) =
      claimConvergedC1 crit pe e r := by
  rw [claimConvergedC1, energyConvergedStep_eq_claim, residualConvergedStep_eq_claim]

/-- Monitor used in the claim C1 counterexample: criteria `(1, 1)`, one prior
record produced by `update(1, 0.0, 0.0)`. -/
def c1m1 : ConvergenceMonitor :=
  ((ConvergenceMonitor.init { energy_abs_tol := 1, energy_rel_tol := 1 }).update
    1 (some (.fin 0)) (some (.fin 0))).1

/-- The last record of `c1m1`, as created by the first update. -/
def c1rec : ConvergenceRecord :=
  { iteration := 1, energy := some (.fin 0), residual_norm := some (.fin 0),
    converged := false }

/-- C1, counterexample.  `c1m1` holds exactly one prior record with energy
`0.0`; a subsequent `update(0, 0.0, 0.0)` satisfies every condition in the
claim's list (energies defined, finite, zero difference below tolerance,
relative criterion waived since `|0.0| ≤ 1e-12`, residual `0.0 < 1`), yet the
returned record has `converged = false`, because the code additionally
requires `iteration > 0` — contradicting the claim's "irrespective of the
numeric value of the iteration argument". -/
theorem claim_c1_counterexample :
    c1m1.records = [c1rec] ∧
    claimConvergedC1 c1m1.criteria c1rec.energy (some (.fin 0)) (some (.fin 0)) = true ∧
    (c1m1.update 0 (some (.fin 0)) (some (.fin 0))).2.converged = false := by
  refine ⟨by norm_num [c1m1, c1rec, ConvergenceMonitor.init, ConvergenceMonitor.update,
    ConvergenceMonitor.records, convergedStep], ?_, by norm_num [c1m1,
    ConvergenceMonitor.init, ConvergenceMonitor.update, convergedStep]⟩
  norm_num [claimConvergedC1, claimEnergyOkC1, claimResidualOkC1, c1m1, c1rec,
    ConvergenceMonitor.init, ConvergenceMonitor.update]

/-- C1, amended: for a monitor holding at least one prior record (with last
record `prev`), `update(iteration, energy, residual)` returns a record with
`converged = true` iff `iteration > 0` *and* all the claim's conditions hold
(energies defined/finite, absolute criterion, relative criterion when
`|previous_energy| > 1e-12`, residual defined/finite/below tolerance). -/
theorem claim_c1_amended (m : ConvergenceMonitor) (it : ℤ) (e r : Option Fl)
    (prev : ConvergenceRecord) (hprev : m._records.getLast? = some prev) :
    (m.update it e r).2.converged = true ↔
      (0 < it ∧ claimConvergedC1 m.criteria prev.energy e r = true) := by
  simp only [ConvergenceMonitor.update, convergedStep, hprev, Option.map_some']
  rw [step_eq_claimConvergedC1]
  split
  · simp [*]
  · simp [*]

/-- Witness for `claim_c1_amended` at the concrete monitor `c1m1`. -/
theorem claim_c1_amended_witness :
    (c1m1.update 2 (some (.fin 0)) (some (.fin 0))).2.converged = true ↔
      (0 < (2 : ℤ) ∧
        claimConvergedC1 c1m1.criteria c1rec.energy (some (.fin 0)) (some (.fin 0)) = true) :=
  claim_c1_amended c1m1 2 (some (.fin 0)) (some (.fin 0)) c1rec
    (by norm_num [c1m1, ConvergenceMonitor.init, ConvergenceMonitor.update,
      convergedStep, c1rec])

/-! ## Claim C3: the concrete convergence scenario

All numeric literals are the exact rational values of the IEEE-754 doubles
the Python program computes with (e.g. `-75.123456` denotes
`-2643171628502999/2^45`).  The floating-point subtractions performed in the
scenario are exact (Sterbenz), so the exact rational model below reproduces
the Python run step for step. -/

/-- Criteria `(energy_abs_tol = 1e-6, energy_rel_tol = 5e-7)` as doubles. -/
def c3crit : ConvergenceCriteria :=
  { energy_abs_tol := 4722366482869645 / 4722366482869645213696,
    energy_rel_tol := 4722366482869645 / 9444732965739290427392 }

/-- Energy `-75.0`. -/
def c3e0 : Fl := .fin (-75)
/-- Energy `-75.123456` (exact double value). -/
def c3e1 : Fl := .fin (-2643171628502999 / 35184372088832)
/-- Energy `-75.123457` (exact double value). -/
def c3e2 : Fl := .fin (-2643171663687371 / 35184372088832)
/-- Residual `1e-2` (exact double value). -/
def c3r0 : Fl := .fin (5764607523034235 / 576460752303423488)
/-- Residual `2e-6` (exact double value). -/
def c3r1 : Fl := .fin (4722366482869645 / 2361183241434822606848)
/-- Residual `5e-7` (exact double value). -/
def c3r2 : Fl := .fin (4722366482869645 / 9444732965739290427392)

/-- State after `update(0, -75.0, 1e-2)`. -/
def c3s0 : ConvergenceMonitor × ConvergenceRecord :=
  (ConvergenceMonitor.init c3crit).update 0 (some c3e0) (some c3r0)
/-- State after `update(1, -75.123456, 2e-6)`. -/
def c3s1 : ConvergenceMonitor × ConvergenceRecord :=
  c3s0.1.update 1 (some c3e1) (some c3r1)
/-- State after `update(2, -75.123457, 5e-7)`. -/
def c3s2 : ConvergenceMonitor × ConvergenceRecord :=
  c3s1.1.update 2 (some c3e2) (some c3r2)

/-- C3: with criteria `(1e-6, 5e-7)`, the call sequence
`update(0, -75.0, 1e-2); update(1, -75.123456, 2e-6);
update(2, -75.123457, 5e-7)` yields not-converged, not-converged, converged,
and `is_converged()` is true afterwards. -/
theorem claim_c3 :
    c3s0.2.converged = false ∧ c3s1.2.converged = false ∧
    c3s2.2.converged = true ∧ c3s2.1.is_converged = true := by
  norm_num [c3s0, c3s1, c3s2, c3crit, c3e0, c3e1, c3e2, c3r0, c3r1, c3r2,
    ConvergenceMonitor.init, ConvergenceMonitor.update,
    ConvergenceMonitor.is_converged, convergedStep, energyConvergedStep,
    residualConvergedStep, abs_of_pos]

/-! ## Claim C8: the converged flag is sticky -/

/-- C8: once `is_converged()` is true, it stays true after any further
sequence of `update` calls, whatever their arguments. -/
theorem claim_c8 (m : ConvergenceMonitor)
    (l : List (ℤ × Option Fl × Option Fl)) (h : m.is_converged = true) :
    (m.runUpdates l).is_converged = true := by
  induction l generalizing m with
  | nil => exact h
  | cons u t ih =>
      apply ih
      simp only [ConvergenceMonitor.is_converged, ConvergenceMonitor.update] at h ⊢
      simp [h]

/-- Witness for `claim_c8`: a converged monitor stays converged across two
further updates that individually fail the criteria (undefined energies and
residuals). -/
theorem claim_c8_witness :
    (ConvergenceMonitor.runUpdates
      ⟨{ energy_abs_tol := 1, energy_rel_tol := 1 }, [], true⟩
      [(5, none, none), (6, none, none)]).is_converged = true :=
  claim_c8 _ _ rfl

/-! ## src/tangelo/dlpno/coupling.py

The coupling functional works on finite numeric data throughout (the claims
about it concern exact values and error behaviour, not rounding), so its
values are modelled as exact rationals.  `mo_energies` is the array of MO
energies; `mo_integrals` is the 4-index tensor, modelled as its index map
together with the (common) axis length that the shape check inspects. -/

/-- The two-electron integral tensor: a 4D array of shape
`(dim, dim, dim, dim)`. -/
structure MOIntegrals where
  dim : ℕ
  val : ℕ → ℕ → ℕ → ℕ → ℚ

/-- The `ValueError`s that `evaluate_coupling_functional` can raise, as
structured payloads carrying the data interpolated into the Python message
strings (coupling.py lines 86-105 and 131-136). -/
inductive CouplingError where
  | indexIOutOfBounds (i : ℕ) (n_occ : ℕ)
  | indexJOutOfBounds (j : ℕ) (n_occ : ℕ)
  | shapeMismatch (dim n_mos : ℕ)
  | noVirtualSpace (n_occ n_mos : ℕ)
  | nonNegativeDenominator (i j a b : ℕ) (denom : ℚ)
deriving DecidableEq, Repr

/-- The virtual index range `range(n_occ, n_mos)` of the Python loops. -/
def virtualRange (n_occ n_mos : ℕ) : List ℕ :=
  List.range' n_occ (n_mos - n_occ)

/-- The virtual pairs `(a, b)` visited by the two nested loops of
coupling.py lines 122-148, in their traversal order (lexicographic: `a`
outer, `b` inner). -/
def virtualPairs (n_occ n_mos : ℕ) : List (ℕ × ℕ) :=
  (virtualRange n_occ n_mos).flatMap fun a =>
    (virtualRange n_occ n_mos).map fun b => (a, b)

/-- The body of the virtual double loop (coupling.py lines 122-148): check
the energy denominator, raise on a non-negative one, otherwise add the MP2
pair-energy contribution to the accumulator `e_pair`. -/
def mp2Body (i j : ℕ) (ε : ℕ → ℚ) (M : MOIntegrals) (e_pair : ℚ) (ab : ℕ × ℕ) :
    Except CouplingError ℚ :=
  let denom := ε i + ε j - ε ab.1 - ε ab.2
  if 0 ≤ denom then
    Except.error (.nonNegativeDenominator i j ab.1 ab.2 denom)
  else
    let iajb := M.val i j ab.1 ab.2
    let ibja := M.val i j ab.2 ab.1
    let t_abij := 2 * iajb - ibja
    Except.ok (e_pair + t_abij * iajb / denom)

/-- The contribution of one virtual pair to the MP2 pair energy (the value
added by `mp2Body` when the denominator check passes). -/
def mp2Term (i j : ℕ) (ε : ℕ → ℚ) (M : MOIntegrals) (ab : ℕ × ℕ) : ℚ :=
  (2 * M.val i j ab.1 ab.2 - M.val i j ab.2 ab.1) * M.val i j ab.1 ab.2 /
    (ε i + ε j - ε ab.1 - ε ab.2)

/-- Unfolding of `mp2Body` with the contribution expressed through
`mp2Term`. -/
lemma mp2Body_eq (i j : ℕ) (ε : ℕ → ℚ) (M : MOIntegrals) (e_pair : ℚ)
    (ab : ℕ × ℕ) :
    mp2Body i j ε M e_pair ab =
      if 0 ≤ ε i + ε j - ε ab.1 - ε ab.2 then
        Except.error (.nonNegativeDenominator i j ab.1 ab.2
          (ε i + ε j - ε ab.1 - ε ab.2))
      else Except.ok (e_pair + mp2Term i j ε M ab) := rfl

/-- The accumulation of `e_pair` over the virtual double loop (coupling.py
lines 114-148), including the in-loop check raising on a non-negative energy
denominator.  The nested `for a / for b` loops traverse `virtualPairs` in
order, so they are rendered as a single monadic fold of `mp2Body` over that
list. -/
def mp2PairSum (i j n_occ n_mos : ℕ) (ε : ℕ → ℚ) (M : MOIntegrals) :
    Except CouplingError ℚ :=
  (virtualPairs n_occ n_mos).foldlM (mp2Body i j ε M) 0

/-- `evaluate_coupling_functional` (coupling.py lines 45-151).  The
`isinstance(..., np.ndarray)` checks are rendered by the static types of the
embedding; the remaining validation (index bounds, tensor shape against
`n_mos = len(mo_energies)`, `n_occ < n_mos`), the diagonal short-circuit and
the double-loop accumulation follow the source.  Orbital energies are read
through `List.getD` (all accesses are in bounds when the validation has
passed). -/
def evaluate_coupling_functional (i j : ℕ) (mo_energies : List ℚ)
    (mo_integrals : MOIntegrals) (n_occ : ℕ) : Except CouplingError ℚ :=
  if n_occ ≤ i then .error (.indexIOutOfBounds i n_occ)
  else if n_occ ≤ j then .error (.indexJOutOfBounds j n_occ)
  else
    let n_mos := mo_energies.length
    if mo_integrals.dim ≠ n_mos then .error (.shapeMismatch mo_integrals.dim n_mos)
    else if n_mos ≤ n_occ then .error (.noVirtualSpace n_occ n_mos)
    else if i = j then .ok 0
    else
      (mp2PairSum i j n_occ n_mos (fun k => mo_energies.getD k 0) mo_integrals).map
        fun e_pair => |e_pair|

/-! ### Behaviour of the fold of `mp2Body` -/

/-- When no denominator in the list is non-negative, the fold of `mp2Body`
succeeds with the plain sum of the contributions. -/
lemma foldlM_mp2Body_ok (i j : ℕ) (ε : ℕ → ℚ) (M : MOIntegrals)
    (l : List (ℕ × ℕ)) (init : ℚ)
    (h : ∀ ab ∈ l, ¬ 0 ≤ ε i + ε j - ε ab.1 - ε ab.2) :
    l.foldlM (mp2Body i j ε M) init =
      Except.ok (init + (l.map (mp2Term i j ε M)).sum) := by
  induction l generalizing init with
  | nil =>
      show pure init = Except.ok (init + ([].map (mp2Term i j ε M)).sum)
      simp
      rfl
  | cons y t ih =>
      rw [List.foldlM_cons, mp2Body_eq, if_neg (h y (List.mem_cons_self y t))]
      show t.foldlM (mp2Body i j ε M) (init + mp2Term i j ε M y) = _
      rw [ih _ fun ab hab => h ab (List.mem_cons_of_mem y hab)]
      simp [add_assoc]

/-- When some denominator in the list is non-negative, the fold of `mp2Body`
reports the physical-inconsistency error for one such virtual pair, whatever
the accumulator. -/
lemma foldlM_mp2Body_error (i j : ℕ) (ε : ℕ → ℚ) (M : MOIntegrals)
    (l : List (ℕ × ℕ))
    (h : ∃ ab ∈ l, 0 ≤ ε i + ε j - ε ab.1 - ε ab.2) :
    ∃ ab ∈ l, 0 ≤ ε i + ε j - ε ab.1 - ε ab.2 ∧ ∀ init : ℚ,
      l.foldlM (mp2Body i j ε M) init =
        Except.error (.nonNegativeDenominator i j ab.1 ab.2
          (ε i + ε j - ε ab.1 - ε ab.2)) := by
  induction l with
  | nil => simp at h
  | cons y t ih =>
      by_cases hy : 0 ≤ ε i + ε j - ε y.1 - ε y.2
      · refine ⟨y, List.mem_cons_self y t, hy, fun init => ?_⟩
        rw [List.foldlM_cons, mp2Body_eq, if_pos hy]
        rfl
      · obtain ⟨ab, hab, hd⟩ : ∃ ab ∈ t, 0 ≤ ε i + ε j - ε ab.1 - ε ab.2 := by
          rcases h with ⟨ab, hab, hd⟩
          rcases List.mem_cons.1 hab with rfl | habt
          · exact absurd hd hy
          · exact ⟨ab, habt, hd⟩
        obtain ⟨ab', hab', hd', hrun⟩ := ih ⟨ab, hab, hd⟩
        refine ⟨ab', List.mem_cons_of_mem y hab', hd', fun init => ?_⟩
        rw [List.foldlM_cons, mp2Body_eq, if_neg hy]
        show t.foldlM (mp2Body i j ε M) (init + mp2Term i j ε M y) = _
        exact hrun _

/-! ### Sums over the virtual pair list -/

/-- Sum of a map over `List.range'` as a `Finset.range` sum. -/
lemma sum_map_range' {G : Type} [AddCommMonoid G] (f : ℕ → G) (n s : ℕ) :
    ((List.range' s n).map f).sum = ∑ k ∈ Finset.range n, f (s + k) := by
  induction n generalizing s with
  | zero => simp
  | succ n ih =>
      rw [List.range'_succ, List.map_cons, List.sum_cons, ih (s + 1),
        Finset.sum_range_succ']
      have h1 : ∑ k ∈ Finset.range n, f (s + 1 + k) =
          ∑ k ∈ Finset.range n, f (s + (k + 1)) :=
        Finset.sum_congr rfl fun k _ => by congr 1; omega
      rw [h1, add_comm (f s)]
      simp

/-- Sum of a map over a `flatMap` as a nested sum. -/
lemma sum_map_flatMap {α β : Type} {G : Type} [AddCommMonoid G]
    (l : List α) (F : α → List β) (g : β → G) :
    ((l.flatMap F).map g).sum = (l.map fun a => ((F a).map g).sum).sum := by
  induction l with
  | nil => simp
  | cons y t ih => simp [List.flatMap_cons, ih]

/-- Sum of a map over the virtual pair list as a double `Finset.range` sum. -/
lemma sum_map_virtualPairs (g : ℕ × ℕ → ℚ) (n_occ n_mos : ℕ) :
    ((virtualPairs n_occ n_mos).map g).sum =
      ∑ a ∈ Finset.range (n_mos - n_occ), ∑ b ∈ Finset.range (n_mos - n_occ),
        g (n_occ + a, n_occ + b) := by
  rw [virtualPairs, sum_map_flatMap, virtualRange, sum_map_range']
  apply Finset.sum_congr rfl
  intro a _
  rw [List.map_map, sum_map_range']
  rfl

/-- Membership in the virtual pair list is membership of both components in
the virtual index range. -/
lemma mem_virtualPairs (n_occ n_mos a b : ℕ) (h : n_occ ≤ n_mos) :
    (a, b) ∈ virtualPairs n_occ n_mos ↔
      (n_occ ≤ a ∧ a < n_mos) ∧ (n_occ ≤ b ∧ b < n_mos) := by
  have hrange : ∀ m, m ∈ virtualRange n_occ n_mos ↔ n_occ ≤ m ∧ m < n_mos := by
    intro m
    rw [virtualRange, List.mem_range'_1]
    omega
  constructor
  · intro hm
    rcases List.mem_flatMap.1 hm with ⟨a', ha', hm'⟩
    rcases List.mem_map.1 hm' with ⟨b', hb', heq⟩
    cases heq
    exact ⟨(hrange a).1 ha', (hrange b).1 hb'⟩
  · intro ⟨ha, hb⟩
    exact List.mem_flatMap.2 ⟨a, (hrange a).2 ha,
      List.mem_map.2 ⟨b, (hrange b).2 hb, rfl⟩⟩

/-- When the input validation passes and `i ≠ j`, `evaluate_coupling_functional`
is the absolute value of the guarded MP2 pair sum. -/
lemma evaluate_eq_of_valid (i j n_occ : ℕ) (es : List ℚ) (M : MOIntegrals)
    (hi : i < n_occ) (hj : j < n_occ) (hij : i ≠ j)
    (hdim : M.dim = es.length) (hvirt : n_occ < es.length) :
    evaluate_coupling_functional i j es M n_occ =
      (mp2PairSum i j n_occ es.length (fun k => es.getD k 0) M).map
        fun e_pair => |e_pair| := by
  rw [evaluate_coupling_functional]
  rw [if_neg (by omega), if_neg (by omega)]
  simp only
  rw [if_neg (by omega), if_neg (by omega), if_neg hij]

/-! ## Claim C9: the diagonal pair short-circuits to exactly zero -/

/-- C9: for a valid index `i` and inputs passing the shape/configuration
checks, `evaluate_coupling_functional i i` returns exactly `0.0`.  The
statement holds for *arbitrary* orbital energies — including energies for
which every virtual denominator would be non-negative — which expresses that
the diagonal short-circuit performs no summation and inspects no
denominator. -/
theorem claim_c9 (i n_occ : ℕ) (es : List ℚ) (M : MOIntegrals)
    (hi : i < n_occ) (hdim : M.dim = es.length) (hvirt : n_occ < es.length) :
    evaluate_coupling_functional i i es M n_occ = .ok 0 := by
  rw [evaluate_coupling_functional]
  rw [if_neg (by omega), if_neg (by omega)]
  simp only
  rw [if_neg (by omega), if_neg (by omega)]
  simp

/-- Witness for `claim_c9`: a configuration whose only virtual denominator is
`0 - 0 - 0 - 0 = 0 ≥ 0`, i.e. would trip the denominator error if it were
inspected; the diagonal evaluation still returns `0.0`. -/
theorem claim_c9_witness :
    evaluate_coupling_functional 0 0 [0, 0] ⟨2, fun _ _ _ _ => 1⟩ 1 = .ok 0 :=
  claim_c9 0 1 [0, 0] ⟨2, fun _ _ _ _ => 1⟩ (by norm_num) (by norm_num) (by norm_num)

/-! ## Claim C5: the non-negative-denominator error -/

/-- C5: for a valid distinct pair `i ≠ j` with shape-consistent inputs,
`evaluate_coupling_functional` reports the physical-inconsistency error if
and only if some virtual pair `(a, b)` in `[n_occ, n_mos)²` has denominator
`ε_i + ε_j - ε_a - ε_b ≥ 0`; the error payload names the occupied pair
`(i, j)`, offending virtual indices `(a, b)` and the denominator value; and
when no such denominator exists the evaluation returns a value. -/
theorem claim_c5 (i j n_occ : ℕ) (es : List ℚ) (M : MOIntegrals)
    (hi : i < n_occ) (hj : j < n_occ) (hij : i ≠ j)
    (hdim : M.dim = es.length) (hvirt : n_occ < es.length) :
    ((∃ a ∈ Finset.Ico n_occ es.length, ∃ b ∈ Finset.Ico n_occ es.length,
        0 ≤ es.getD i 0 + es.getD j 0 - es.getD a 0 - es.getD b 0) →
      ∃ a ∈ Finset.Ico n_occ es.length, ∃ b ∈ Finset.Ico n_occ es.length,
        0 ≤ es.getD i 0 + es.getD j 0 - es.getD a 0 - es.getD b 0 ∧
        evaluate_coupling_functional i j es M n_occ =
          .error (.nonNegativeDenominator i j a b
            (es.getD i 0 + es.getD j 0 - es.getD a 0 - es.getD b 0))) ∧
    ((¬ ∃ a ∈ Finset.Ico n_occ es.length, ∃ b ∈ Finset.Ico n_occ es.length,
        0 ≤ es.getD i 0 + es.getD j 0 - es.getD a 0 - es.getD b 0) →
      ∃ v, evaluate_coupling_functional i j es M n_occ = .ok v) := by
  have hle : n_occ ≤ es.length := le_of_lt hvirt
  rw [evaluate_eq_of_valid i j n_occ es M hi hj hij hdim hvirt, mp2PairSum]
  constructor
  · intro hex
    obtain ⟨a, ha, b, hb, hd⟩ := hex
    rw [Finset.mem_Ico] at ha hb
    have hmem : (a, b) ∈ virtualPairs n_occ es.length :=
      (mem_virtualPairs n_occ es.length a b hle).2 ⟨ha, hb⟩
    obtain ⟨ab, hmem', hd', hrun⟩ :=
      foldlM_mp2Body_error i j (fun k => es.getD k 0) M
        (virtualPairs n_occ es.length) ⟨(a, b), hmem, hd⟩
    have hab' := (mem_virtualPairs n_occ es.length ab.1 ab.2 hle).1 hmem'
    refine ⟨ab.1, Finset.mem_Ico.2 hab'.1, ab.2, Finset.mem_Ico.2 hab'.2, hd', ?_⟩
    rw [hrun 0]
    rfl
  · intro hnone
    have hall : ∀ ab ∈ virtualPairs n_occ es.length,
        ¬ 0 ≤ es.getD i 0 + es.getD j 0 - es.getD ab.1 0 - es.getD ab.2 0 := by
      rintro ⟨a, b⟩ hmem hd
      have hab := (mem_virtualPairs n_occ es.length a b hle).1 hmem
      exact hnone ⟨a, Finset.mem_Ico.2 hab.1, b, Finset.mem_Ico.2 hab.2, hd⟩
    rw [foldlM_mp2Body_ok i j (fun k => es.getD k 0) M _ 0 hall]
    exact ⟨_, rfl⟩

/-- Energies for the C5 witness: all zero, so every virtual denominator is
`0 ≥ 0`. -/
def c5es : List ℚ := [0, 0, 0]

/-- Integral tensor for the C5 witness. -/
def c5M : MOIntegrals := ⟨3, fun _ _ _ _ => 0⟩

/-- Witness for `claim_c5` at `i = 0`, `j = 1`, `n_occ = 2`, energies
`[0, 0, 0]`. -/
theorem claim_c5_witness :
    ((∃ a ∈ Finset.Ico 2 c5es.length, ∃ b ∈ Finset.Ico 2 c5es.length,
        0 ≤ c5es.getD 0 0 + c5es.getD 1 0 - c5es.getD a 0 - c5es.getD b 0) →
      ∃ a ∈ Finset.Ico 2 c5es.length, ∃ b ∈ Finset.Ico 2 c5es.length,
        0 ≤ c5es.getD 0 0 + c5es.getD 1 0 - c5es.getD a 0 - c5es.getD b 0 ∧
        evaluate_coupling_functional 0 1 c5es c5M 2 =
          .error (.nonNegativeDenominator 0 1 a b
            (c5es.getD 0 0 + c5es.getD 1 0 - c5es.getD a 0 - c5es.getD b 0))) ∧
    ((¬ ∃ a ∈ Finset.Ico 2 c5es.length, ∃ b ∈ Finset.Ico 2 c5es.length,
        0 ≤ c5es.getD 0 0 + c5es.getD 1 0 - c5es.getD a 0 - c5es.getD b 0) →
      ∃ v, evaluate_coupling_functional 0 1 c5es c5M 2 = .ok v) :=
  claim_c5 0 1 2 c5es c5M (by norm_num) (by norm_num) (by norm_num)
    (by norm_num [c5es, c5M]) (by norm_num [c5es])

/-! ## Claim C2: symmetry of the coupling functional -/

/-- An integral tensor that passes every validation check of
`evaluate_coupling_functional` but lacks the two-electron integral symmetry:
`(1a|0b)`-type entries differ from `(0a|1b)`-type ones. -/
def c2M : MOIntegrals :=
  ⟨3, fun p q r s => if p = 1 ∧ q = 0 ∧ r = 2 ∧ s = 2 then 1 else 0⟩

/-- C2, counterexample.  With energies `[0, 0, 1]`, `n_occ = 2` and the
asymmetric (but shape-valid) tensor `c2M`, the pair `(0, 1)` evaluates to `0`
while `(1, 0)` evaluates to `1/2`: the results differ by far more than the
claimed `~1e-12` tolerance.  Validation inspects only container types and
shapes, so this input "passes validation" in the claim's sense. -/
theorem claim_c2_counterexample :
    evaluate_coupling_functional 0 1 [0, 0, 1] c2M 2 = .ok 0 ∧
    evaluate_coupling_functional 1 0 [0, 0, 1] c2M 2 = .ok (1/2) ∧
    ¬ (|(0 : ℚ) - 1/2| ≤ 1e-12) := by
  refine ⟨?_, ?_, by norm_num [abs_of_neg]⟩ <;>
    norm_num [evaluate_coupling_functional, mp2PairSum, mp2Body, virtualPairs,
      virtualRange, c2M, List.range', List.foldlM, Except.map, abs_of_neg]

/-- The MP2 pair sums for `(j, i)` and `(i, j)` agree when the integral
tensor has the two-electron symmetry `M[p,q,r,s] = M[q,p,s,r]`
(chemist `(pq|rs) = (rs|pq)` in the array's index convention): reindexing the
virtual double sum by swapping `a` and `b` maps each `(j, i)` term onto the
corresponding `(i, j)` term. -/
lemma mp2_sum_symm (i j n_occ nm : ℕ) (ε : ℕ → ℚ) (M : MOIntegrals)
    (hM : ∀ p q r s, M.val p q r s = M.val q p s r) :
    ((virtualPairs n_occ nm).map (mp2Term j i ε M)).sum =
      ((virtualPairs n_occ nm).map (mp2Term i j ε M)).sum := by
  rw [sum_map_virtualPairs, sum_map_virtualPairs, Finset.sum_comm]
  apply Finset.sum_congr rfl
  intro x _
  apply Finset.sum_congr rfl
  intro y _
  simp only [mp2Term]
  rw [hM j i (n_occ + y) (n_occ + x), hM j i (n_occ + x) (n_occ + y)]
  ring

/-- One direction of the symmetry: a successful evaluation of `(i, j)`
forces the same successful value for `(j, i)` when the integral tensor is
symmetric. -/
lemma evaluate_ok_symm (i j n_occ : ℕ) (es : List ℚ) (M : MOIntegrals)
    (hi : i < n_occ) (hj : j < n_occ)
    (hM : ∀ p q r s, M.val p q r s = M.val q p s r) (v : ℚ)
    (h : evaluate_coupling_functional i j es M n_occ = .ok v) :
    evaluate_coupling_functional j i es M n_occ = .ok v := by
  by_cases hij : i = j
  · subst hij; exact h
  have hi' : ¬ n_occ ≤ i := by omega
  have hj' : ¬ n_occ ≤ j := by omega
  rw [evaluate_coupling_functional] at h
  rw [if_neg hi', if_neg hj'] at h
  simp only at h
  by_cases hdim : M.dim = es.length
  · by_cases hvirt : es.length ≤ n_occ
    · rw [if_neg (not_not_intro hdim), if_pos hvirt] at h
      exact absurd h (by simp)
    · rw [if_neg (not_not_intro hdim), if_neg hvirt, if_neg hij] at h
      have hvirt' : n_occ < es.length := by omega
      rw [evaluate_eq_of_valid j i n_occ es M hj hi (Ne.symm hij) hdim hvirt']
      rw [mp2PairSum] at h
      rw [mp2PairSum]
      by_cases hex : ∃ ab ∈ virtualPairs n_occ es.length,
          0 ≤ es.getD i 0 + es.getD j 0 - es.getD ab.1 0 - es.getD ab.2 0
      · obtain ⟨ab, hmem', hd', hrun⟩ :=
          foldlM_mp2Body_error i j (fun k => es.getD k 0) M
            (virtualPairs n_occ es.length) hex
        rw [hrun 0] at h
        exact absurd h (by simp [Except.map])
      · have hall : ∀ ab ∈ virtualPairs n_occ es.length,
            ¬ 0 ≤ es.getD i 0 + es.getD j 0 - es.getD ab.1 0 - es.getD ab.2 0 :=
          fun ab hab hd => hex ⟨ab, hab, hd⟩
        have hall' : ∀ ab ∈ virtualPairs n_occ es.length,
            ¬ 0 ≤ es.getD j 0 + es.getD i 0 - es.getD ab.1 0 - es.getD ab.2 0 := by
          intro ab hab hd
          exact hall ab hab (by linarith [hd])
        rw [foldlM_mp2Body_ok i j (fun k => es.getD k 0) M _ 0 hall] at h
        rw [foldlM_mp2Body_ok j i (fun k => es.getD k 0) M _ 0 hall']
        simp only [Except.map] at h ⊢
        rw [← h, zero_add, zero_add,
          mp2_sum_symm i j n_occ es.length (fun k => es.getD k 0) M hM]
  · rw [if_pos hdim] at h
    exact absurd h (by simp)

/-- C2, amended: for valid occupied indices and an integral tensor with the
two-electron symmetry `M[p,q,r,s] = M[q,p,s,r]` (which every physical tensor
of real integrals in chemist notation has), the evaluation is symmetric in
`(i, j)`: both orders yield the same successful value.  (The original claim
is false for tensors that merely pass the shape validation, which does not
inspect symmetry.) -/
theorem claim_c2_amended (i j n_occ : ℕ) (es : List ℚ) (M : MOIntegrals)
    (hi : i < n_occ) (hj : j < n_occ)
    (hM : ∀ p q r s, M.val p q r s = M.val q p s r) (v : ℚ) :
    evaluate_coupling_functional i j es M n_occ = .ok v ↔
      evaluate_coupling_functional j i es M n_occ = .ok v :=
  ⟨evaluate_ok_symm i j n_occ es M hi hj hM v,
   evaluate_ok_symm j i n_occ es M hj hi hM v⟩

/-- Witness for `claim_c2_amended` on a symmetric tensor. -/
theorem claim_c2_amended_witness :
    evaluate_coupling_functional 0 1 [0, 0, 1] ⟨3, fun _ _ _ _ => 1⟩ 2 = .ok (1/2) ↔
      evaluate_coupling_functional 1 0 [0, 0, 1] ⟨3, fun _ _ _ _ => 1⟩ 2 = .ok (1/2) :=
  claim_c2_amended 0 1 2 [0, 0, 1] ⟨3, fun _ _ _ _ => 1⟩ (by norm_num) (by norm_num)
    (fun _ _ _ _ => rfl) (1/2)

/-! ## src/tangelo/dlpno/pairs.py -/

/-- The duck-typed reference wavefunction object probed by `build_pair_set`
(pairs.py lines 100-133).  Each field is `some` exactly when the Python
object has the corresponding attribute / method:
`mo_energies`, `get_full_space_integrals` (whose third component is the
integral tensor), `mo_occ`, and `n_electrons`. -/
structure ReferenceWavefunction where
  mo_energies : Option (List ℚ)
  full_space_integrals : Option MOIntegrals
  mo_occ : Option (List ℚ)
  n_electrons : Option ℤ

/-- The `ValueError`s that `build_pair_set` can raise, as structured
payloads; errors from the per-pair coupling evaluation propagate through
`coupling`. -/
inductive PairsError where
  | invalidThreshold (t : ℚ)
  | missingMoEnergies
  | missingIntegrals
  | missingOccupation
  | oddElectrons (n : ℤ)
  | nonPositiveNOcc (n : ℤ)
  | coupling (e : CouplingError)
deriving DecidableEq, Repr

/-- The `mo_energies` extraction (pairs.py lines 100-106): the explicit
argument wins; otherwise the attribute; otherwise a missing-data error. -/
def resolveMoEnergies (ref : ReferenceWavefunction) (mo_energies : Option (List ℚ)) :
    Except PairsError (List ℚ) :=
  match mo_energies with
  | some es => .ok es
  | none =>
    match ref.mo_energies with
    | some es => .ok es
    | none => .error .missingMoEnergies

/-- The `mo_integrals` extraction (pairs.py lines 109-115). -/
def resolveMoIntegrals (ref : ReferenceWavefunction) (mo_integrals : Option MOIntegrals) :
    Except PairsError MOIntegrals :=
  match mo_integrals with
  | some ints => .ok ints
  | none =>
    match ref.full_space_integrals with
    | some ints => .ok ints
    | none => .error .missingIntegrals

/-- The occupied-orbital count derivation (pairs.py lines 117-133):
`mo_occ` (counting entries `> 1.5`) takes precedence over `n_electrons`
(halved, after rejecting odd counts); with neither attribute a missing-data
error is raised. -/
def deriveNOcc (ref : ReferenceWavefunction) : Except PairsError ℤ :=
  match ref.mo_occ with
  | some mo_occ => .ok (mo_occ.countP fun x => decide ((1.5 : ℚ) < x))
  | none =>
    match ref.n_electrons with
    | some n_electrons =>
        if n_electrons % 2 ≠ 0 then .error (.oddElectrons n_electrons)
        else .ok (n_electrons / 2)
    | none => .error .missingOccupation

/-- The occupied pairs `(i, j)` with `i < j < n_occ` visited by the nested
loops of pairs.py lines 141-148, in their traversal order (lexicographic:
`i` outer, `j` inner over `range(i + 1, n_occ)`). -/
def occupiedPairs (n_occ : ℕ) : List (ℕ × ℕ) :=
  (List.range n_occ).flatMap fun i =>
    (List.range' (i + 1) (n_occ - (i + 1))).map fun j => (i, j)

/-- The body of the screening loop (pairs.py lines 143-148): evaluate the
coupling functional (propagating its errors) and retain the pair when
`c_ij >= threshold`. -/
def screenBody (es : List ℚ) (ints : MOIntegrals) (n_occ : ℕ) (threshold : ℚ)
    (acc : List (ℕ × ℕ)) (p : ℕ × ℕ) : Except PairsError (List (ℕ × ℕ)) :=
  match evaluate_coupling_functional p.1 p.2 es ints n_occ with
  | .error e => .error (.coupling e)
  | .ok c_ij => .ok (if threshold ≤ c_ij then acc ++ [p] else acc)

/-- `build_pair_set` (pairs.py lines 57-151): threshold validation, input
resolution, occupancy derivation, then the screening loop over all occupied
pairs.  The `isinstance` half of the threshold check is rendered by the
static type. -/
def build_pair_set (ref : ReferenceWavefunction) (threshold : ℚ)
    (mo_energies : Option (List ℚ)) (mo_integrals : Option MOIntegrals) :
    Except PairsError (List (ℕ × ℕ)) :=
  if threshold < 0 then .error (.invalidThreshold threshold)
  else do
    let es ← resolveMoEnergies ref mo_energies
    let ints ← resolveMoIntegrals ref mo_integrals
    let n_occ ← deriveNOcc ref
    if n_occ ≤ 0 then Except.error (.nonPositiveNOcc n_occ)
    else (occupiedPairs n_occ.toNat).foldlM (screenBody es ints n_occ.toNat threshold) []

/-! ### Properties of the occupied pair enumeration -/

/-- Lexicographic strict order on index pairs. -/
def pairLexLt (p q : ℕ × ℕ) : Prop :=
  p.1 < q.1 ∨ (p.1 = q.1 ∧ p.2 < q.2)

lemma mem_occupiedPairs (n i j : ℕ) :
    (i, j) ∈ occupiedPairs n ↔ i < j ∧ j < n := by
  rw [occupiedPairs, List.mem_flatMap]
  constructor
  · rintro ⟨i', hi', hm⟩
    rcases List.mem_map.1 hm with ⟨j', hj', heq⟩
    cases heq
    rw [List.mem_range] at hi'
    rw [List.mem_range'_1] at hj'
    omega
  · intro ⟨hij, hjn⟩
    exact ⟨i, List.mem_range.2 (by omega),
      List.mem_map.2 ⟨j, List.mem_range'_1.2 (by omega), rfl⟩⟩

lemma length_occupiedPairs (n : ℕ) :
    (occupiedPairs n).length = n * (n - 1) / 2 := by
  rw [occupiedPairs, List.length_flatMap]
  have h1 : (List.map (List.length ∘ fun i =>
      (List.range' (i + 1) (n - (i + 1))).map fun j => (i, j)) (List.range n)) =
      List.map (fun i => n - (i + 1)) (List.range n) := by
    apply List.map_congr_left
    intro i _
    simp [List.length_range']
  rw [h1, List.range_eq_range', sum_map_range']
  have h2 : ∀ k, n - (0 + k + 1) = n - 1 - k := fun k => by omega
  calc ∑ k ∈ Finset.range n, (n - (0 + k + 1))
      = ∑ k ∈ Finset.range n, (n - 1 - k) := Finset.sum_congr rfl fun k _ => h2 k
    _ = ∑ k ∈ Finset.range n, k := Finset.sum_range_reflect (fun k => k) n
    _ = n * (n - 1) / 2 := Finset.sum_range_id n

lemma pairwise_occupiedPairs (n : ℕ) :
    (occupiedPairs n).Pairwise pairLexLt := by
  rw [occupiedPairs, List.pairwise_flatMap]
  constructor
  · intro i _
    rw [List.pairwise_map]
    exact (List.pairwise_lt_range' (i + 1) (n - (i + 1))).imp
      fun h => Or.inr ⟨rfl, h⟩
  · apply (List.pairwise_lt_range n).imp
    intro i₁ i₂ h x hx y hy
    rcases List.mem_map.1 hx with ⟨j₁, _, rfl⟩
    rcases List.mem_map.1 hy with ⟨j₂, _, rfl⟩
    exact Or.inl h

lemma nodup_occupiedPairs (n : ℕ) : (occupiedPairs n).Nodup :=
  (pairwise_occupiedPairs n).imp fun h => by
    rcases h with h | ⟨h1, h2⟩ <;> intro heq <;> subst heq <;> omega

/-! ### Behaviour of the screening fold -/

/-- The retention decision for one pair: the coupling evaluation succeeded
and its value reached the threshold. -/
def keepPair (es : List ℚ) (ints : MOIntegrals) (n_occ : ℕ) (threshold : ℚ)
    (p : ℕ × ℕ) : Bool :=
  match evaluate_coupling_functional p.1 p.2 es ints n_occ with
  | .ok c => decide (threshold ≤ c)
  | .error _ => false

/-- A successful screening fold means every evaluation succeeded, and the
output extends the accumulator with exactly the retained pairs in order. -/
lemma foldlM_screenBody_ok (es : List ℚ) (ints : MOIntegrals) (n_occ : ℕ)
    (threshold : ℚ) (l : List (ℕ × ℕ)) (acc out : List (ℕ × ℕ))
    (h : l.foldlM (screenBody es ints n_occ threshold) acc = .ok out) :
    (∀ p ∈ l, ∃ c, evaluate_coupling_functional p.1 p.2 es ints n_occ = .ok c) ∧
      out = acc ++ l.filter (keepPair es ints n_occ threshold) := by
  induction l generalizing acc with
  | nil =>
      refine ⟨by simp, ?_⟩
      have hh : (Except.ok acc : Except PairsError (List (ℕ × ℕ))) = Except.ok out := h
      cases hh
      simp
  | cons p t ih =>
      rw [List.foldlM_cons] at h
      cases heval : evaluate_coupling_functional p.1 p.2 es ints n_occ with
      | error e =>
          rw [show screenBody es ints n_occ threshold acc p =
              .error (.coupling e) by rw [screenBody, heval]] at h
          exact absurd h (by simp [Bind.bind, Except.bind])
      | ok c =>
          rw [show screenBody es ints n_occ threshold acc p =
              .ok (if threshold ≤ c then acc ++ [p] else acc) by
            rw [screenBody, heval]] at h
          have h' : t.foldlM (screenBody es ints n_occ threshold)
              (if threshold ≤ c then acc ++ [p] else acc) = .ok out := h
          obtain ⟨hall, hout⟩ := ih _ h'
          refine ⟨?_, ?_⟩
          · intro q hq
            rcases List.mem_cons.1 hq with rfl | hq'
            · exact ⟨c, heval⟩
            · exact hall q hq'

          · rw [hout, List.filter_cons]
            have hkeep : keepPair es ints n_occ threshold p =
                decide (threshold ≤ c) := by rw [keepPair, heval]
            rw [hkeep]
            by_cases hc : threshold ≤ c
            · simp [hc]
            · simp [hc]

/-- A value returned by a successful coupling evaluation is non-negative
(it is an absolute value, and the diagonal short-circuit returns `0`). -/
lemma evaluate_ok_nonneg (i j n_occ : ℕ) (es : List ℚ) (M : MOIntegrals) (v : ℚ)
    (h : evaluate_coupling_functional i j es M n_occ = .ok v) : 0 ≤ v := by
  rw [evaluate_coupling_functional] at h
  split at h
  · exact absurd h (by simp)
  split at h
  · exact absurd h (by simp)
  simp only at h
  split at h
  · exact absurd h (by simp)
  split at h
  · exact absurd h (by simp)
  split at h
  · cases h
    exact le_refl 0
  · cases hm : mp2PairSum i j n_occ es.length (fun k => es.getD k 0) M with
    | error e =>
        rw [hm] at h
        exact absurd h (by simp [Except.map])
    | ok s =>
        rw [hm] at h
        simp only [Except.map] at h
        cases h
        exact abs_nonneg s

/-- Characterisation of a successful `build_pair_set` call: every extraction
step succeeded, the derived occupancy is positive, every pair evaluation
succeeded, and the result is the ordered filter of the occupied pairs by the
retention rule. -/
lemma build_pair_set_ok (ref : ReferenceWavefunction) (threshold : ℚ)
    (oes : Option (List ℚ)) (oints : Option MOIntegrals) (l : List (ℕ × ℕ))
    (hok : build_pair_set ref threshold oes oints = .ok l) :
    ∃ es ints z, resolveMoEnergies ref oes = .ok es ∧
      resolveMoIntegrals ref oints = .ok ints ∧
      deriveNOcc ref = .ok z ∧ 0 < z ∧
      (∀ p ∈ occupiedPairs z.toNat,
        ∃ c, evaluate_coupling_functional p.1 p.2 es ints z.toNat = .ok c) ∧
      l = (occupiedPairs z.toNat).filter (keepPair es ints z.toNat threshold) := by
  rw [build_pair_set] at hok
  split at hok
  · exact absurd hok (by simp)
  cases hres : resolveMoEnergies ref oes with
  | error e =>
      rw [hres] at hok
      exact absurd hok (by simp [Bind.bind, Except.bind])
  | ok es =>
      rw [hres] at hok
      cases hints : resolveMoIntegrals ref oints with
      | error e =>
          rw [hints] at hok
          exact absurd hok (by simp [Bind.bind, Except.bind])
      | ok ints =>
          rw [hints] at hok
          cases hder : deriveNOcc ref with
          | error e =>
              rw [hder] at hok
              exact absurd hok (by simp [Bind.bind, Except.bind])
          | ok z =>
              rw [hder] at hok
              simp only [Bind.bind, Except.bind] at hok
              by_cases hz : z ≤ 0
              · rw [if_pos hz] at hok
                exact absurd hok (by simp)
              · rw [if_neg hz] at hok
                obtain ⟨hall, hout⟩ :=
                  foldlM_screenBody_ok es ints z.toNat threshold _ [] l hok
                exact ⟨es, ints, z, rfl, rfl, rfl, by omega, hall,
                  by rw [hout, List.nil_append]⟩

/-! ## Claim C6: zero threshold retains all pairs -/

/-- C6: whenever `build_pair_set` with threshold `0.0` succeeds and the
reference's derived occupied count is `z`, the returned list contains exactly
`n·(n−1)/2` pairs (`n = z.toNat`), each with `i < j < n`, in strictly
increasing lexicographic order, with no duplicates. -/
theorem claim_c6 (ref : ReferenceWavefunction) (oes : Option (List ℚ))
    (oints : Option MOIntegrals) (z : ℤ) (l : List (ℕ × ℕ))
    (hder : deriveNOcc ref = .ok z)
    (hok : build_pair_set ref 0 oes oints = .ok l) :
    l.length = z.toNat * (z.toNat - 1) / 2 ∧
    (∀ p ∈ l, p.1 < p.2 ∧ p.2 < z.toNat) ∧
    l.Pairwise pairLexLt ∧ l.Nodup := by
  obtain ⟨es, ints, z', hres, hints, hder', hz, hall, hout⟩ :=
    build_pair_set_ok ref 0 oes oints l hok
  have hzz : z' = z := by
    rw [hder] at hder'
    cases hder'
    rfl
  subst hzz
  have hfilter : (occupiedPairs z'.toNat).filter (keepPair es ints z'.toNat 0) =
      occupiedPairs z'.toNat := by
    apply List.filter_eq_self.2
    intro p hp
    obtain ⟨c, hc⟩ := hall p hp
    rw [keepPair, hc]
    exact decide_eq_true (evaluate_ok_nonneg p.1 p.2 z'.toNat es ints c hc)
  rw [hout, hfilter]
  refine ⟨length_occupiedPairs z'.toNat, ?_, pairwise_occupiedPairs z'.toNat,
    nodup_occupiedPairs z'.toNat⟩
  intro p hp
  exact (mem_occupiedPairs z'.toNat p.1 p.2).1 hp

/-- Reference object for the pair-screening witnesses: two occupied orbitals
(`mo_occ = [2, 2, 0]`), energies `[0, 0, 1]`, constant symmetric integrals. -/
def c6ref : ReferenceWavefunction :=
  { mo_energies := some [0, 0, 1],
    full_space_integrals := some ⟨3, fun _ _ _ _ => 1⟩,
    mo_occ := some [2, 2, 0],
    n_electrons := none }

/-- The concrete screening run used by the witnesses: `c6ref` with threshold
`0.0` retains the single occupied pair `(0, 1)`. -/
lemma c6ref_build : build_pair_set c6ref 0 none none = .ok [(0, 1)] := by
  norm_num [build_pair_set, c6ref, resolveMoEnergies, resolveMoIntegrals,
    deriveNOcc, Bind.bind, Except.bind, occupiedPairs, List.range',
    List.foldlM, screenBody, evaluate_coupling_functional, mp2PairSum,
    mp2Body, virtualPairs, virtualRange, List.flatMap, Except.map,
    pure, Except.pure, abs_of_neg, show (2 : ℤ).toNat = 2 from rfl]

/-- Witness for `claim_c6`: `c6ref` has two occupied orbitals, and the zero
threshold retains the single pair `(0, 1)`. -/
theorem claim_c6_witness :
    ([((0 : ℕ), (1 : ℕ))].length = (2 : ℤ).toNat * ((2 : ℤ).toNat - 1) / 2 ∧
     (∀ p ∈ [((0 : ℕ), (1 : ℕ))], p.1 < p.2 ∧ p.2 < (2 : ℤ).toNat) ∧
     ([((0 : ℕ), (1 : ℕ))] : List (ℕ × ℕ)).Pairwise pairLexLt ∧
     ([((0 : ℕ), (1 : ℕ))] : List (ℕ × ℕ)).Nodup) := by
  refine claim_c6 c6ref none none 2 [(0, 1)] ?_ c6ref_build
  norm_num [deriveNOcc, c6ref]

/-! ## Claim C7: monotonicity of the screening threshold -/

/-- C7: for a fixed reference and input arrays and thresholds `τ1 ≤ τ2`, when
both screening calls succeed, every pair retained at the higher threshold is
also retained at the lower one. -/
theorem claim_c7 (ref : ReferenceWavefunction) (t1 t2 : ℚ)
    (oes : Option (List ℚ)) (oints : Option MOIntegrals)
    (l1 l2 : List (ℕ × ℕ)) (ht : t1 ≤ t2)
    (h1 : build_pair_set ref t1 oes oints = .ok l1)
    (h2 : build_pair_set ref t2 oes oints = .ok l2) :
    ∀ p ∈ l2, p ∈ l1 := by
  obtain ⟨es1, ints1, z1, hres1, hints1, hder1, hz1, hall1, hout1⟩ :=
    build_pair_set_ok ref t1 oes oints l1 h1
  obtain ⟨es2, ints2, z2, hres2, hints2, hder2, hz2, hall2, hout2⟩ :=
    build_pair_set_ok ref t2 oes oints l2 h2
  have he : es2 = es1 := by rw [hres1] at hres2; cases hres2; rfl
  have hi : ints2 = ints1 := by rw [hints1] at hints2; cases hints2; rfl
  have hz : z2 = z1 := by rw [hder1] at hder2; cases hder2; rfl
  subst he hi hz
  intro p hp
  rw [hout2, List.mem_filter] at hp
  rw [hout1, List.mem_filter]
  refine ⟨hp.1, ?_⟩
  have hk := hp.2
  rw [keepPair] at hk ⊢
  cases heval : evaluate_coupling_functional p.1 p.2 es2 ints2 z2.toNat with
  | error e =>
      rw [heval] at hk
      exact absurd hk (by simp)
  | ok c =>
      rw [heval] at hk
      exact decide_eq_true (le_trans ht (of_decide_eq_true hk))

/-- Witness for `claim_c7` with `τ1 = τ2 = 0` on `c6ref`, specialised to the
retained pair `(0, 1)`. -/
theorem claim_c7_witness :
    ((0 : ℕ), (1 : ℕ)) ∈ ([((0 : ℕ), (1 : ℕ))] : List (ℕ × ℕ)) :=
  claim_c7 c6ref 0 0 none none [(0, 1)] [(0, 1)] (le_refl 0) c6ref_build c6ref_build
    (0, 1) (List.mem_cons_self _ _)

/-! ## Claim C10: occupation information is required and `mo_occ` wins -/

/-- C10: even with both arrays supplied explicitly, `build_pair_set` still
derives the occupancy from the reference object: with neither `mo_occ` nor
`n_electrons` it raises the missing-data error; when `mo_occ` is present it
takes precedence (the `n_electrons` field is ignored), and the occupancy it
contributes is the count of entries greater than `1.5` (the call behaves
exactly as if `n_electrons` were twice that count and `mo_occ` absent). -/
theorem claim_c10 (ref : ReferenceWavefunction) (t : ℚ) (es : List ℚ)
    (ints : MOIntegrals) (ht : ¬ t < 0) :
    (ref.mo_occ = none → ref.n_electrons = none →
      build_pair_set ref t (some es) (some ints) = .error .missingOccupation) ∧
    (∀ occ, ref.mo_occ = some occ →
      (∀ ne, build_pair_set { ref with n_electrons := ne } t (some es) (some ints) =
          build_pair_set ref t (some es) (some ints)) ∧
      build_pair_set ref t (some es) (some ints) =
        build_pair_set
          { mo_energies := ref.mo_energies,
            full_space_integrals := ref.full_space_integrals,
            mo_occ := none,
            n_electrons := some (2 * (occ.countP fun x => decide ((1.5 : ℚ) < x) : ℕ)) }
          t (some es) (some ints)) := by
  constructor
  · intro h1 h2
    rw [build_pair_set, if_neg ht]
    simp [resolveMoEnergies, resolveMoIntegrals, deriveNOcc, h1, h2,
      Bind.bind, Except.bind]
  · intro occ hocc
    constructor
    · intro ne
      rw [build_pair_set, build_pair_set, if_neg ht, if_neg ht]
      simp [resolveMoEnergies, resolveMoIntegrals, deriveNOcc, hocc]
    · rw [build_pair_set, build_pair_set, if_neg ht, if_neg ht]
      have hmod : ((2 : ℤ) * (occ.countP fun x => decide ((1.5 : ℚ) < x) : ℕ)) % 2 = 0 :=
        Int.mul_emod_right 2 _
      have hdiv : ((2 : ℤ) * (occ.countP fun x => decide ((1.5 : ℚ) < x) : ℕ)) / 2 =
          (occ.countP fun x => decide ((1.5 : ℚ) < x) : ℕ) :=
        Int.mul_ediv_cancel_left _ (by norm_num)
      simp [resolveMoEnergies, resolveMoIntegrals, deriveNOcc, hocc, hmod, hdiv]

/-- Reference object for the C10 witness. -/
def c10ref : ReferenceWavefunction :=
  { mo_energies := none, full_space_integrals := none,
    mo_occ := some [2, 2, 0], n_electrons := some 7 }

/-- Witness for `claim_c10` at `c10ref` (occupation array present, odd
`n_electrons` attribute ignored because `mo_occ` wins). -/
theorem claim_c10_witness :
    (c10ref.mo_occ = none → c10ref.n_electrons = none →
      build_pair_set c10ref 0 (some [0, 0, 1]) (some ⟨3, fun _ _ _ _ => 1⟩) =
        .error .missingOccupation) ∧
    (∀ occ, c10ref.mo_occ = some occ →
      (∀ ne, build_pair_set { c10ref with n_electrons := ne } 0
          (some [0, 0, 1]) (some ⟨3, fun _ _ _ _ => 1⟩) =
          build_pair_set c10ref 0 (some [0, 0, 1]) (some ⟨3, fun _ _ _ _ => 1⟩)) ∧
      build_pair_set c10ref 0 (some [0, 0, 1]) (some ⟨3, fun _ _ _ _ => 1⟩) =
        build_pair_set
          { mo_energies := c10ref.mo_energies,
            full_space_integrals := c10ref.full_space_integrals,
            mo_occ := none,
            n_electrons := some (2 * (occ.countP fun x => decide ((1.5 : ℚ) < x) : ℕ)) }
          0 (some [0, 0, 1]) (some ⟨3, fun _ _ _ _ => 1⟩)) :=
  claim_c10 c10ref 0 [0, 0, 1] ⟨3, fun _ _ _ _ => 1⟩ (by norm_num)

/-! ## Claim C4: the `records` query under Python reference semantics

`ConvergenceRecord` is a plain (non-frozen) dataclass, so its instances are
mutable objects, and `ConvergenceMonitor.records` returns
`self._records.copy()` — a *new list* whose elements are the *same record
objects*.  To reason about what a caller's mutation can reach, this second
model of the same class makes the object store explicit: records live in a
heap addressed by allocation order, the monitor's `_records` is a list of
addresses, and `records` returns a copy of that address list (the returned
Lean list is a fresh value, which is exactly the list-level copy; the
addresses inside it are shared).  A caller assigning to a field of a
returned element is a heap update at an address taken from the returned
list. -/

/-- The heap of `ConvergenceRecord` objects; the address of an object is its
allocation index. -/
structure RecordHeap where
  data : List ConvergenceRecord
deriving DecidableEq, Repr

/-- Dereference an object address. -/
def RecordHeap.get (h : RecordHeap) (a : ℕ) : ConvergenceRecord :=
  h.data.getD a default

/-- The caller-side field assignment `record.energy = v` on the object at
address `a` (possible because the dataclass is not frozen). -/
def RecordHeap.setEnergy (h : RecordHeap) (a : ℕ) (v : Option Fl) : RecordHeap :=
  ⟨h.data.set a { h.data.getD a default with energy := v }⟩

/-- `ConvergenceMonitor` state under reference semantics: the criteria, the
addresses of the logged records, and the sticky flag. -/
structure ConvergenceMonitorRef where
  criteria : ConvergenceCriteria
  recs : List ℕ
  converged : Bool
deriving DecidableEq, Repr

/-- `ConvergenceMonitor.update` under reference semantics: the convergence
decision reads the object the last stored address points to (the same
`convergedStep` as in the value model), then the new record is allocated and
its address appended. -/
def updateRef (h : RecordHeap) (m : ConvergenceMonitorRef) (iteration : ℤ)
    (energy residual_norm : Option Fl) : RecordHeap × ConvergenceMonitorRef :=
  let converged := convergedStep m.criteria iteration
    ((m.recs.getLast?).map fun a => (h.get a).energy) energy residual_norm
  let record : ConvergenceRecord :=
    { iteration := iteration, energy := energy,
      residual_norm := residual_norm, converged := converged }
  (⟨h.data ++ [record]⟩,
   { m with recs := m.recs ++ [h.data.length],
            converged := m.converged || converged })

/-- The `records` query under reference semantics: `self._records.copy()`, a
fresh list holding the same object references. -/
def recordsRef (m : ConvergenceMonitorRef) : List ℕ :=
  m.recs

/-- What a holder of record references observes when reading them (e.g. the
caller inspecting the result of `records`, or the monitor reading its own
log). -/
def observe (h : RecordHeap) (l : List ℕ) : List ConvergenceRecord :=
  l.map h.get

/-- The heap/monitor pair after `update(1, None, None)` from a fresh
monitor with criteria `(1, 1)`. -/
def c4s1 : RecordHeap × ConvergenceMonitorRef :=
  updateRef ⟨[]⟩ ⟨{ energy_abs_tol := 1, energy_rel_tol := 1 }, [], false⟩ 1 none none

/-- The heap/monitor pair after a further `update(2, None, None)`. -/
def c4s2 : RecordHeap × ConvergenceMonitorRef :=
  updateRef c4s1.1 c4s1.2 2 none none

/-- C4, counterexample.  After two updates, the caller takes the result of
`records` and assigns to the `energy` field of its second element (a mutation
performed purely on the returned value).  A later `records` query then
observes the changed record: the monitor's internal state has changed,
contradicting the claim that no caller mutation of the returned value can be
observed through later `records` calls (and the claim's assertion that the
elements are immutable). -/
theorem claim_c4_counterexample :
    observe (c4s2.1.setEnergy ((recordsRef c4s2.2).getD 1 0) (some (.fin 1)))
        (recordsRef c4s2.2) ≠
      observe c4s2.1 (recordsRef c4s2.2) := by
  decide

/-- C4, amended: `records` preserves insertion order and returns a fresh
list (list-level defensive copy), but its elements are the monitor's own
mutable record objects: assigning to a field of the `k`-th returned element
changes the monitor's internal `k`-th record as observed by any later
`records` query.  Only list-level mutations of the returned copy leave the
monitor unaffected. -/
theorem claim_c4_amended (h : RecordHeap) (m : ConvergenceMonitorRef)
    (k a : ℕ) (rec : ConvergenceRecord) (v : Option Fl)
    (hk : (recordsRef m)[k]? = some a)
    (ha : h.data[a]? = some rec) :
    (observe (h.setEnergy a v) (recordsRef m))[k]? =
      some { rec with energy := v } := by
  have hlen : a < h.data.length := (List.getElem?_eq_some_iff.1 ha).1
  have hbase : h.data.getD a default = rec := by
    rw [List.getD_eq_getElem?_getD, ha]
    rfl
  rw [observe, List.getElem?_map, hk, Option.map_some']
  simp only [RecordHeap.get, RecordHeap.setEnergy, hbase]
  rw [List.getD_eq_getElem?_getD, List.getElem?_set_self hlen]
  rfl

/-- The single record of the C4 witness monitor. -/
def c4rec : ConvergenceRecord :=
  { iteration := 1, energy := none, residual_norm := none, converged := false }

/-- Witness for `claim_c4_amended` on a one-record monitor. -/
theorem claim_c4_amended_witness :
    (observe (RecordHeap.setEnergy ⟨[c4rec]⟩ 0 (some (.fin 1)))
        (recordsRef ⟨{ energy_abs_tol := 1, energy_rel_tol := 1 }, [0], false⟩))[0]? =
      some { c4rec with energy := some (.fin 1) } :=
  claim_c4_amended ⟨[c4rec]⟩
    ⟨{ energy_abs_tol := 1, energy_rel_tol := 1 }, [0], false⟩ 0 0 c4rec
    (some (.fin 1)) rfl rfl

end Tangelo
